import Mathlib

/-!
Verification of the Printipi `Scheduler` core (`src/scheduler.h`) against its
natural-language specification.

The scheduler is single-threaded and cooperative.  We embed it shallowly:

* `Scheduler` carries the three data members `MAX_SLEEP`, `nextEvent`, `_doExit`
  (the last rendered `doExit`); times and durations (`EventClockT`) are `Int`.
* The external world is an oracle: each loop iteration consumes one `EnvStep`
  recording the clock readings taken in that iteration and what the
  `interface.onIdleCpu` callback did (its boolean result, an optional call back
  into `Scheduler::queue`, an optional call to `Scheduler::exitEventLoop`).
* `iterStep` is one iteration of the `while (!_doExit)` body of
  `Scheduler::eventLoop`; `runLoop` runs the loop over a finite oracle trace,
  emitting one `IterOutput` observation per iteration (the event handed to
  `interface.queue`, the interval class handed to `onIdleCpu`, the deadline
  handed to `SleepT::sleep_until`, whether the iteration left the loop).
* `interface.schedTime` is an arbitrary pure function `schedTime : Int → Int`.
-/

namespace Printipi

/-- Modelled from the spec: `OutputEvent` lives in `outputevent.h`, which is not
among the sources; spec §4.2 describes it as a value type wrapping a logical
`time` and an opaque payload, with an explicit empty sentinel distinct from any
valid time value and an `isEmpty`/`isNull` predicate.  The default-constructed
`OutputEvent()` used by the scheduler to clear its slot is the empty sentinel. -/
inductive OutputEvent : Type where
  | null : OutputEvent
  | event (time : Int) (payload : Nat) : OutputEvent
deriving DecidableEq

/-- `OutputEvent::isNull()`: true exactly on the empty sentinel. -/
def OutputEvent.isNull : OutputEvent → Bool
  | .null => true
  | .event _ _ => false

/-- `OutputEvent::time()`; the scheduler only reads it behind an `isNull` guard,
so the value on the sentinel is immaterial. -/
def OutputEvent.time : OutputEvent → Int
  | .null => 0
  | .event t _ => t

/-- The `OnIdleCpuIntervalT` hint passed to `interface.onIdleCpu`. -/
inductive OnIdleCpuIntervalT : Type where
  | short : OnIdleCpuIntervalT
  | wide : OnIdleCpuIntervalT
deriving DecidableEq

/-- The data members of `Scheduler<Interface>`: `MAX_SLEEP`, `nextEvent`,
`_doExit`.  (`interface` is represented by the `schedTime` parameter threaded
through the loop functions and by the oracle trace.) -/
structure Scheduler : Type where
  MAX_SLEEP : Int
  nextEvent : OutputEvent
  doExit : Bool
deriving DecidableEq

/-- `setDefaultMaxSleep` installs 40 milliseconds. -/
def defaultMaxSleep : Int := 40

/-- `Scheduler::Scheduler(interface)`: `_doExit(false)`, slot default-null,
then `setDefaultMaxSleep()`. -/
def mkScheduler : Scheduler :=
  { MAX_SLEEP := defaultMaxSleep, nextEvent := OutputEvent.null, doExit := false }

/-- `Scheduler::queue(evt)`: `this->nextEvent = evt;`. -/
def Scheduler.queue (s : Scheduler) (evt : OutputEvent) : Scheduler :=
  { s with nextEvent := evt }

/-- `Scheduler::setMaxSleep(duration)`. -/
def Scheduler.setMaxSleep (s : Scheduler) (d : Int) : Scheduler :=
  { s with MAX_SLEEP := d }

/-- `Scheduler::isRoomInBuffer()`: `return nextEvent.isNull();`. -/
def Scheduler.isRoomInBuffer (s : Scheduler) : Bool :=
  s.nextEvent.isNull

/-- `Scheduler::exitEventLoop()`: `_doExit = true;`. -/
def Scheduler.exitEventLoop (s : Scheduler) : Scheduler :=
  { s with doExit := true }

/-- `Scheduler::isEventTime(evt)`:
`return interface.schedTime(evt.time()) <= EventClockT::now();`. -/
def isEventTime (schedTime : Int → Int) (now : Int) (evt : OutputEvent) : Bool :=
  decide (schedTime evt.time ≤ now)

/-- The deadline `Scheduler::sleepUntilEvent(evt)` hands to
`SleepT::sleep_until`: start at `now + MAX_SLEEP` and clamp down to
`schedTime(evt.time())` when `evt` is non-null and that is sooner. -/
def sleepUntilEventDeadline (maxSleep : Int) (schedTime : Int → Int)
    (now : Int) (evt : OutputEvent) : Int :=
  let sleepUntil := now + maxSleep
  if evt.isNull = false then
    let evtTime := schedTime evt.time
    if evtTime < sleepUntil then evtTime else sleepUntil
  else
    sleepUntil

/-- Loop state of `Scheduler::eventLoop`: the member data plus the two loop
locals `intervalT` and `numShortIntervals` (a C++ `int` that starts at 0 and is
only ever incremented, rendered as `Nat`). -/
structure LoopState : Type where
  sched : Scheduler
  intervalT : OnIdleCpuIntervalT
  numShortIntervals : Nat
deriving DecidableEq

/-- What the outside world does during one loop iteration: the value
`EventClockT::now()` returns inside `isEventTime` (`now1`) and inside
`sleepUntilEvent` (`now2`); the result of `interface.onIdleCpu` (`idleResult`);
whether that callback called `Scheduler::queue` (`idleOffer`) or
`Scheduler::exitEventLoop` (`idleCancel`). -/
structure EnvStep : Type where
  now1 : Int
  idleResult : Bool
  idleOffer : Option OutputEvent
  idleCancel : Bool
  now2 : Int
deriving DecidableEq

/-- Observations of one loop iteration: the event passed to `interface.queue`
(if any), the interval class passed to `interface.onIdleCpu`, the deadline
passed to `SleepT::sleep_until` (if the iteration slept), and whether the
iteration left the loop via `break`. -/
structure IterOutput : Type where
  dispatched : Option OutputEvent
  idleCall : OnIdleCpuIntervalT
  sleptUntil : Option Int
  exited : Bool
deriving DecidableEq

/-- The head of the loop body:
`if (!nextEvent.isNull() && isEventTime(nextEvent)) { interface.queue(nextEvent);
this->nextEvent = OutputEvent(); }`.  Returns the updated state and the event
handed to `interface.queue`, if any. -/
def dispatchPhase (schedTime : Int → Int) (s : LoopState) (now : Int) :
    LoopState × Option OutputEvent :=
  if s.sched.nextEvent.isNull = false ∧ isEventTime schedTime now s.sched.nextEvent = true then
    ({ s with sched := { s.sched with nextEvent := OutputEvent.null } },
     some s.sched.nextEvent)
  else
    (s, none)

/-- Effects the `onIdleCpu` callback may have on the scheduler while it runs:
calls to `Scheduler::queue` and `Scheduler::exitEventLoop`. -/
def applyIdleEffects (s : LoopState) (e : EnvStep) : LoopState :=
  let s1 := match e.idleOffer with
    | some evt => { s with sched := s.sched.queue evt }
    | none => s
  if e.idleCancel then { s1 with sched := s1.sched.exitEventLoop } else s1

/-- One iteration of the `while (!_doExit)` body of `Scheduler::eventLoop`
(the caller has already established that the guard passed). -/
def iterStep (schedTime : Int → Int) (s : LoopState) (e : EnvStep) :
    LoopState × IterOutput :=
  let dp := dispatchPhase schedTime s e.now1
  let s1 := dp.1
  let disp := dp.2
  let called := s1.intervalT
  let s2 := applyIdleEffects s1 e
  if e.idleResult = false then
    if s2.sched.doExit = true then
      -- re-check of `_doExit` before the long sleep: `break`
      (s2, ⟨disp, called, none, true⟩)
    else
      ({ s2 with intervalT := OnIdleCpuIntervalT.wide },
       ⟨disp, called,
        some (sleepUntilEventDeadline s2.sched.MAX_SLEEP schedTime e.now2 s2.sched.nextEvent),
        false⟩)
  else
    ({ s2 with numShortIntervals := s2.numShortIntervals + 1,
               intervalT := if (s2.numShortIntervals + 1) % 2048 ≠ 0
                            then OnIdleCpuIntervalT.short else OnIdleCpuIntervalT.wide },
     ⟨disp, called, none, false⟩)

/-- Result of running the event loop over a finite oracle trace: the final
state, the per-iteration observations, and whether `eventLoop` returned
(`returned = false` means the oracle trace ran out first). -/
structure RunResult : Type where
  final : LoopState
  outs : List IterOutput
  returned : Bool
deriving DecidableEq

/-- The `_doExit = false;` executed after the loop, just before `eventLoop`
returns. -/
def clearExit (s : LoopState) : LoopState :=
  { s with sched := { s.sched with doExit := false } }

/-- The `while (!_doExit)` loop of `Scheduler::eventLoop`, driven by a finite
oracle trace; each iteration consumes one `EnvStep`. -/
def runLoop (schedTime : Int → Int) : LoopState → List EnvStep → RunResult
  | s, [] =>
    if s.sched.doExit = true then ⟨clearExit s, [], true⟩ else ⟨s, [], false⟩
  | s, e :: rest =>
    if s.sched.doExit = true then ⟨clearExit s, [], true⟩
    else
      let so := iterStep schedTime s e
      if so.2.exited = true then ⟨clearExit so.1, [so.2], true⟩
      else
        let r := runLoop schedTime so.1 rest
        ⟨r.final, so.2 :: r.outs, r.returned⟩

/-- `Scheduler::eventLoop()`: initialize the loop locals
(`intervalT = OnIdleCpuIntervalWide`, `numShortIntervals = 0`) and run the
loop. -/
def Scheduler.eventLoop (schedTime : Int → Int) (s : Scheduler)
    (env : List EnvStep) : RunResult :=
  runLoop schedTime ⟨s, OnIdleCpuIntervalT.wide, 0⟩ env

/-- A concrete non-null event used to instantiate hypothesis-bearing theorems. -/
def sampleEvent : OutputEvent := OutputEvent.event 5 0

/-- A concrete `schedTime` translation (the identity). -/
def schedTimeId : Int → Int := fun t => t

/-- A freshly constructed scheduler holding `sampleEvent`. -/
def sampleSched : Scheduler := mkScheduler.queue sampleEvent

/-- The loop state at entry of `eventLoop` on `sampleSched`. -/
def sampleLoop : LoopState := ⟨sampleSched, OnIdleCpuIntervalT.wide, 0⟩

/-- An oracle step whose clock reads 10 and whose idle slice reports no work. -/
def stepDispatch : EnvStep := ⟨10, false, none, false, 10⟩

/-! ## Helper lemmas about single phases of the loop body -/

theorem iterStep_dispatched (schedTime : Int → Int) (s : LoopState) (e : EnvStep) :
    (iterStep schedTime s e).2.dispatched = (dispatchPhase schedTime s e.now1).2 := by
  unfold iterStep
  split
  · dsimp only
    split <;> rfl
  · rfl

theorem iterStep_idleCall (schedTime : Int → Int) (s : LoopState) (e : EnvStep) :
    (iterStep schedTime s e).2.idleCall = s.intervalT := by
  have hd : (dispatchPhase schedTime s e.now1).1.intervalT = s.intervalT := by
    unfold dispatchPhase
    split <;> rfl
  unfold iterStep
  split
  · dsimp only
    split <;> simpa using hd
  · simpa using hd

theorem dispatchPhase_eq_some (schedTime : Int → Int) (s : LoopState) (now : Int)
    (evt : OutputEvent) (h : (dispatchPhase schedTime s now).2 = some evt) :
    evt = s.sched.nextEvent ∧ s.sched.nextEvent.isNull = false ∧
    schedTime s.sched.nextEvent.time ≤ now := by
  unfold dispatchPhase at h
  split at h
  case isTrue hcond =>
    refine ⟨by simpa using h.symm, hcond.1, ?_⟩
    have := hcond.2
    simpa [isEventTime] using this
  case isFalse hcond =>
    simp at h

theorem runLoop_exit (schedTime : Int → Int) (s : LoopState) (env : List EnvStep)
    (h : s.sched.doExit = true) :
    runLoop schedTime s env = ⟨clearExit s, [], true⟩ := by
  cases env <;> simp [runLoop, h]

theorem dispatchPhase_intervalT (schedTime : Int → Int) (s : LoopState) (now : Int) :
    (dispatchPhase schedTime s now).1.intervalT = s.intervalT := by
  unfold dispatchPhase
  split <;> rfl

theorem dispatchPhase_numShort (schedTime : Int → Int) (s : LoopState) (now : Int) :
    (dispatchPhase schedTime s now).1.numShortIntervals = s.numShortIntervals := by
  unfold dispatchPhase
  split <;> rfl

theorem dispatchPhase_doExit (schedTime : Int → Int) (s : LoopState) (now : Int) :
    (dispatchPhase schedTime s now).1.sched.doExit = s.sched.doExit := by
  unfold dispatchPhase
  split <;> rfl

theorem dispatchPhase_maxSleep (schedTime : Int → Int) (s : LoopState) (now : Int) :
    (dispatchPhase schedTime s now).1.sched.MAX_SLEEP = s.sched.MAX_SLEEP := by
  unfold dispatchPhase
  split <;> rfl

theorem applyIdleEffects_intervalT (s : LoopState) (e : EnvStep) :
    (applyIdleEffects s e).intervalT = s.intervalT := by
  cases ho : e.idleOffer <;> cases hc : e.idleCancel <;>
    simp [applyIdleEffects, ho, hc, Scheduler.queue, Scheduler.exitEventLoop]

theorem applyIdleEffects_numShort (s : LoopState) (e : EnvStep) :
    (applyIdleEffects s e).numShortIntervals = s.numShortIntervals := by
  cases ho : e.idleOffer <;> cases hc : e.idleCancel <;>
    simp [applyIdleEffects, ho, hc, Scheduler.queue, Scheduler.exitEventLoop]

theorem applyIdleEffects_doExit (s : LoopState) (e : EnvStep) :
    (applyIdleEffects s e).sched.doExit = (s.sched.doExit || e.idleCancel) := by
  cases ho : e.idleOffer <;> cases hc : e.idleCancel <;>
    simp [applyIdleEffects, ho, hc, Scheduler.queue, Scheduler.exitEventLoop]

theorem applyIdleEffects_maxSleep (s : LoopState) (e : EnvStep) :
    (applyIdleEffects s e).sched.MAX_SLEEP = s.sched.MAX_SLEEP := by
  cases ho : e.idleOffer <;> cases hc : e.idleCancel <;>
    simp [applyIdleEffects, ho, hc, Scheduler.queue, Scheduler.exitEventLoop]

theorem runLoop_nil (schedTime : Int → Int) (s : LoopState)
    (hd : s.sched.doExit = false) :
    runLoop schedTime s [] = ⟨s, [], false⟩ := by
  unfold runLoop
  simp [hd]

theorem runLoop_cons (schedTime : Int → Int) (s : LoopState) (e : EnvStep)
    (rest : List EnvStep) (hd : s.sched.doExit = false)
    (hex : (iterStep schedTime s e).2.exited = false) :
    runLoop schedTime s (e :: rest)
      = ⟨(runLoop schedTime (iterStep schedTime s e).1 rest).final,
         (iterStep schedTime s e).2 :: (runLoop schedTime (iterStep schedTime s e).1 rest).outs,
         (runLoop schedTime (iterStep schedTime s e).1 rest).returned⟩ := by
  simp only [runLoop]
  simp [hd, hex]

theorem runLoop_consBreak (schedTime : Int → Int) (s : LoopState) (e : EnvStep)
    (rest : List EnvStep) (hd : s.sched.doExit = false)
    (hex : (iterStep schedTime s e).2.exited = true) :
    runLoop schedTime s (e :: rest)
      = ⟨clearExit (iterStep schedTime s e).1, [(iterStep schedTime s e).2], true⟩ := by
  simp only [runLoop]
  simp [hd, hex]

theorem iterStep_true_facts (schedTime : Int → Int) (s : LoopState) (e : EnvStep)
    (hres : e.idleResult = true) :
    (iterStep schedTime s e).2.exited = false ∧
    (iterStep schedTime s e).2.sleptUntil = none ∧
    (iterStep schedTime s e).1.sched
      = (applyIdleEffects (dispatchPhase schedTime s e.now1).1 e).sched ∧
    (iterStep schedTime s e).1.numShortIntervals = s.numShortIntervals + 1 ∧
    (iterStep schedTime s e).1.intervalT
      = (if (s.numShortIntervals + 1) % 2048 ≠ 0
         then OnIdleCpuIntervalT.short else OnIdleCpuIntervalT.wide) := by
  obtain ⟨n1, res, off, can, n2⟩ := e
  simp only at hres
  subst hres
  unfold iterStep
  dsimp only
  refine ⟨rfl, rfl, rfl, ?_, ?_⟩ <;>
    simp [applyIdleEffects_numShort, dispatchPhase_numShort]

theorem iterStep_false_numShort (schedTime : Int → Int) (s : LoopState) (e : EnvStep)
    (hres : e.idleResult = false) :
    (iterStep schedTime s e).1.numShortIntervals = s.numShortIntervals := by
  obtain ⟨n1, res, off, can, n2⟩ := e
  simp only at hres
  subst hres
  unfold iterStep
  dsimp only
  split
  · split <;> simp [applyIdleEffects_numShort, dispatchPhase_numShort]
  · simp_all

/-! ## Claim theorems -/

/-- Claim C1 (no early dispatch): in any loop state, whatever the environment
does, an iteration of `eventLoop` hands an event to `interface.queue` only when
its deadline `schedTime(evt.time())` is at or before the `now` read by
`isEventTime` in that iteration; an event whose deadline lies in the future is
never dispatched. -/
theorem no_early_dispatch (schedTime : Int → Int) (s : LoopState) (e : EnvStep)
    (evt : OutputEvent)
    (h : (iterStep schedTime s e).2.dispatched = some evt) :
    schedTime evt.time ≤ e.now1 := by
  rw [iterStep_dispatched] at h
  obtain ⟨heq, _, hle⟩ := dispatchPhase_eq_some schedTime s e.now1 evt h
  rw [heq]
  exact hle

/-- Witness for C1: a dispatch actually happens at a concrete state and then the
deadline bound holds there. -/
theorem no_early_dispatch_w : schedTimeId sampleEvent.time ≤ stepDispatch.now1 :=
  no_early_dispatch schedTimeId sampleLoop stepDispatch sampleEvent (by decide)

/-- Claim C2 (single-slot invariant): `isRoomInBuffer` is true exactly when the
pending slot holds the null event, and after a non-null event is offered via
`queue` and not yet dispatched, `isRoomInBuffer` is false. -/
theorem isRoomInBuffer_iff (s : Scheduler) (evt : OutputEvent) :
    (s.isRoomInBuffer = true ↔ s.nextEvent.isNull = true) ∧
    (evt.isNull = false → (s.queue evt).isRoomInBuffer = false) := by
  refine ⟨Iff.rfl, fun h => ?_⟩
  simpa [Scheduler.queue, Scheduler.isRoomInBuffer] using h

/-- Witness for C2 at a concrete scheduler and a concrete non-null event. -/
theorem isRoomInBuffer_iff_w : (mkScheduler.queue sampleEvent).isRoomInBuffer = false :=
  (isRoomInBuffer_iff mkScheduler sampleEvent).2 (by decide)

/-- Claim C6 (silent overwrite on double offer): `queue` installs its argument
unconditionally; offering twice without an intervening dispatch leaves the
second event in the slot, and neither call touches `MAX_SLEEP` or the exit
flag. -/
theorem queue_overwrites (s : Scheduler) (evt evtB : OutputEvent) :
    (s.queue evt).nextEvent = evt ∧
    ((s.queue evt).queue evtB).nextEvent = evtB ∧
    ((s.queue evt).queue evtB).MAX_SLEEP = s.MAX_SLEEP ∧
    ((s.queue evt).queue evtB).doExit = s.doExit :=
  ⟨rfl, rfl, rfl, rfl⟩

/-- Claim C7 (dispatch clears the slot): when the pending slot is non-empty and
its deadline has passed, the iteration hands exactly that event to
`interface.queue` and the dispatch phase leaves the slot null, so
`isRoomInBuffer` is true immediately afterwards, before the idle slice of the
same iteration. -/
theorem dispatch_clears_slot (schedTime : Int → Int) (s : LoopState) (e : EnvStep)
    (h1 : s.sched.nextEvent.isNull = false)
    (h2 : schedTime s.sched.nextEvent.time ≤ e.now1) :
    (iterStep schedTime s e).2.dispatched = some s.sched.nextEvent ∧
    (dispatchPhase schedTime s e.now1).1.sched.isRoomInBuffer = true := by
  have hc : s.sched.nextEvent.isNull = false ∧
      isEventTime schedTime e.now1 s.sched.nextEvent = true :=
    ⟨h1, by simpa [isEventTime] using h2⟩
  constructor
  · rw [iterStep_dispatched]
    unfold dispatchPhase
    rw [if_pos hc]
  · unfold dispatchPhase
    rw [if_pos hc]
    rfl

/-- Witness for C7 at a concrete state with a due pending event. -/
theorem dispatch_clears_slot_w :
    (iterStep schedTimeId sampleLoop stepDispatch).2.dispatched
      = some sampleLoop.sched.nextEvent ∧
    (dispatchPhase schedTimeId sampleLoop stepDispatch.now1).1.sched.isRoomInBuffer = true :=
  dispatch_clears_slot schedTimeId sampleLoop stepDispatch (by decide) (by decide)

/-- Claim C10 (pre-loop cancellation): if `exitEventLoop` runs before
`eventLoop` is entered, the loop body never executes — no dispatch, no idle
slice, no sleep (the observation trace is empty) — `eventLoop` returns, the
pending slot is untouched, and the exit flag is cleared on return. -/
theorem cancel_before_run (schedTime : Int → Int) (s : Scheduler) (env : List EnvStep) :
    ((s.exitEventLoop).eventLoop schedTime env).outs = [] ∧
    ((s.exitEventLoop).eventLoop schedTime env).returned = true ∧
    ((s.exitEventLoop).eventLoop schedTime env).final.sched.nextEvent = s.nextEvent ∧
    ((s.exitEventLoop).eventLoop schedTime env).final.sched.doExit = false := by
  have h := runLoop_exit schedTime ⟨s.exitEventLoop, OnIdleCpuIntervalT.wide, 0⟩ env rfl
  unfold Scheduler.eventLoop
  rw [h]
  exact ⟨rfl, rfl, rfl, rfl⟩

/-- An oracle step whose idle slice reports no work and calls `exitEventLoop`. -/
def stepCancel : EnvStep := ⟨0, false, none, true, 0⟩

/-- Claim C3 (sleep deadline computation): when an iteration sleeps (idle slice
returned false, exit flag unset after the re-check), the deadline handed to
`SleepT::sleep_until` is `sleepUntilEventDeadline` evaluated at the slot as it
stands at the sleep; that function yields `now + MAX_SLEEP` on an empty slot,
`min (now + MAX_SLEEP) (schedTime evt.time)` on a non-empty one, and never
exceeds `now + MAX_SLEEP`. -/
theorem sleep_deadline_correct (schedTime : Int → Int) (s : LoopState) (e : EnvStep)
    (hres : e.idleResult = false)
    (hexit : (applyIdleEffects (dispatchPhase schedTime s e.now1).1 e).sched.doExit = false) :
    (iterStep schedTime s e).2.sleptUntil
      = some (sleepUntilEventDeadline
          (applyIdleEffects (dispatchPhase schedTime s e.now1).1 e).sched.MAX_SLEEP
          schedTime e.now2
          (applyIdleEffects (dispatchPhase schedTime s e.now1).1 e).sched.nextEvent) ∧
    (∀ maxSleep now : Int, ∀ evt : OutputEvent, evt.isNull = true →
      sleepUntilEventDeadline maxSleep schedTime now evt = now + maxSleep) ∧
    (∀ maxSleep now : Int, ∀ evt : OutputEvent, evt.isNull = false →
      sleepUntilEventDeadline maxSleep schedTime now evt
        = min (now + maxSleep) (schedTime evt.time)) ∧
    (∀ maxSleep now : Int, ∀ evt : OutputEvent,
      sleepUntilEventDeadline maxSleep schedTime now evt ≤ now + maxSleep) := by
  refine ⟨?_, ?_, ?_, ?_⟩
  · obtain ⟨n1, res, off, can, n2⟩ := e
    simp only at hres hexit
    subst hres
    unfold iterStep
    dsimp only
    split
    · split
      · simp_all
      · rfl
    · simp_all
  · intro maxSleep now evt h
    unfold sleepUntilEventDeadline
    simp [h]
  · intro maxSleep now evt h
    unfold sleepUntilEventDeadline
    dsimp only
    rw [if_pos h]
    split <;> omega
  · intro maxSleep now evt
    unfold sleepUntilEventDeadline
    dsimp only
    split
    · split <;> omega
    · omega

/-- Witness for C3: the sleeping branch actually taken at a concrete state. -/
theorem sleep_deadline_correct_w :
    (iterStep schedTimeId sampleLoop stepDispatch).2.sleptUntil
      = some (sleepUntilEventDeadline
          (applyIdleEffects (dispatchPhase schedTimeId sampleLoop stepDispatch.now1).1
            stepDispatch).sched.MAX_SLEEP
          schedTimeId stepDispatch.now2
          (applyIdleEffects (dispatchPhase schedTimeId sampleLoop stepDispatch.now1).1
            stepDispatch).sched.nextEvent) :=
  (sleep_deadline_correct schedTimeId sampleLoop stepDispatch (by decide) (by decide)).1

/-- Claim C5 (cancellation without sleeping): if `exitEventLoop` is called from
inside an `onIdleCpu` slice, the iteration in progress performs no sleep and is
the last one: whatever oracle steps would follow, `eventLoop`'s loop emits
exactly that one further observation and returns — when the slice returns
false, the re-checked exit flag breaks before `sleepUntilEvent`; when it
returns true, the loop condition terminates at the top of the next
iteration. -/
theorem cancel_in_idle_no_sleep (schedTime : Int → Int) (s : LoopState) (e : EnvStep)
    (rest : List EnvStep) (hc : e.idleCancel = true) (hd : s.sched.doExit = false) :
    (runLoop schedTime s (e :: rest)).outs = [(iterStep schedTime s e).2] ∧
    (iterStep schedTime s e).2.sleptUntil = none ∧
    (runLoop schedTime s (e :: rest)).returned = true := by
  have h2 : (applyIdleEffects (dispatchPhase schedTime s e.now1).1 e).sched.doExit = true := by
    rw [applyIdleEffects_doExit, dispatchPhase_doExit, hc, Bool.or_true]
  cases hres : e.idleResult
  case false =>
    have hiter : (iterStep schedTime s e).2
        = ⟨(dispatchPhase schedTime s e.now1).2,
           (dispatchPhase schedTime s e.now1).1.intervalT, none, true⟩ := by
      obtain ⟨n1, res, off, can, n2⟩ := e
      simp only at hres h2
      subst hres
      unfold iterStep
      dsimp only
      split
      · rfl
      · simp_all
    have hex : (iterStep schedTime s e).2.exited = true := by rw [hiter]
    rw [runLoop_consBreak schedTime s e rest hd hex, hiter]
    exact ⟨rfl, rfl, rfl⟩
  case true =>
    obtain ⟨hex, hsl, hsch, -, -⟩ := iterStep_true_facts schedTime s e hres
    have hd2 : (iterStep schedTime s e).1.sched.doExit = true := by rw [hsch]; exact h2
    rw [runLoop_cons schedTime s e rest hd hex,
        runLoop_exit schedTime (iterStep schedTime s e).1 rest hd2]
    exact ⟨rfl, hsl, rfl⟩

/-- Witness for C5: cancelling inside the first idle slice of a concrete run. -/
theorem cancel_in_idle_no_sleep_w :
    (runLoop schedTimeId sampleLoop [stepCancel]).outs
      = [(iterStep schedTimeId sampleLoop stepCancel).2] ∧
    (iterStep schedTimeId sampleLoop stepCancel).2.sleptUntil = none ∧
    (runLoop schedTimeId sampleLoop [stepCancel]).returned = true :=
  cancel_in_idle_no_sleep schedTimeId sampleLoop stepCancel [] (by decide) (by decide)

theorem runLoop_returned_doExit (schedTime : Int → Int) (env : List EnvStep) :
    ∀ s : LoopState, (runLoop schedTime s env).returned = true →
      (runLoop schedTime s env).final.sched.doExit = false := by
  induction env with
  | nil =>
    intro s h
    by_cases hd : s.sched.doExit = true
    · rw [runLoop_exit schedTime s [] hd]
      rfl
    · rw [runLoop_nil schedTime s (by simpa using hd)] at h
      simp at h
  | cons e rest ih =>
    intro s h
    by_cases hd : s.sched.doExit = true
    · rw [runLoop_exit schedTime s (e :: rest) hd]
      rfl
    · have hd' : s.sched.doExit = false := by simpa using hd
      by_cases hex : (iterStep schedTime s e).2.exited = true
      · rw [runLoop_consBreak schedTime s e rest hd' hex]
        rfl
      · have hex' : (iterStep schedTime s e).2.exited = false := by simpa using hex
        rw [runLoop_cons schedTime s e rest hd' hex'] at h ⊢
        exact ih (iterStep schedTime s e).1 h

/-- Claim C8 (exit-flag reset on return): the exit flag is false on
construction, `exitEventLoop` sets it, and whenever `eventLoop` returns the
flag is false again, so a re-entry of `eventLoop` on the same scheduler with a
non-empty oracle trace runs at least one loop iteration instead of exiting at
once. -/
theorem exit_flag_reset (schedTime : Int → Int) (s : Scheduler) (ls : LoopState)
    (env : List EnvStep) :
    mkScheduler.doExit = false ∧
    s.exitEventLoop.doExit = true ∧
    ((runLoop schedTime ls env).returned = true →
      (runLoop schedTime ls env).final.sched.doExit = false) ∧
    ((runLoop schedTime ls env).returned = true → ∀ (e : EnvStep) (rest : List EnvStep),
      ((runLoop schedTime ls env).final.sched.eventLoop schedTime (e :: rest)).outs ≠ []) := by
  refine ⟨rfl, rfl, runLoop_returned_doExit schedTime env ls, fun h e rest => ?_⟩
  have hd : ((runLoop schedTime ls env).final.sched : Scheduler).doExit = false :=
    runLoop_returned_doExit schedTime env ls h
  unfold Scheduler.eventLoop
  set ls2 : LoopState := ⟨(runLoop schedTime ls env).final.sched, OnIdleCpuIntervalT.wide, 0⟩
    with hls2
  have hd2 : ls2.sched.doExit = false := hd
  by_cases hex : (iterStep schedTime ls2 e).2.exited = true
  · rw [runLoop_consBreak schedTime ls2 e rest hd2 hex]
    simp
  · rw [runLoop_cons schedTime ls2 e rest hd2 (by simpa using hex)]
    simp

/-- Witness for C8: a run that is cancelled from the idle slice returns with
the flag cleared, and a restart with one oracle step iterates. -/
theorem exit_flag_reset_w :
    (runLoop schedTimeId sampleLoop [stepCancel]).final.sched.doExit = false ∧
    ((runLoop schedTimeId sampleLoop [stepCancel]).final.sched.eventLoop schedTimeId
      [stepDispatch]).outs ≠ [] :=
  ⟨(exit_flag_reset schedTimeId mkScheduler sampleLoop [stepCancel]).2.2.1 (by decide),
   (exit_flag_reset schedTimeId mkScheduler sampleLoop [stepCancel]).2.2.2 (by decide)
     stepDispatch []⟩

/-- Claim C9 (cumulative, never-reset promotion counter): `numShortIntervals`
is incremented exactly on iterations whose idle slice returns true and is left
unchanged by every other iteration (sleeping or breaking); in the true branch
the next interval class is Wide exactly when the cumulative count becomes a
multiple of 2048, so a Wide promotion can land before 2048 consecutive true
results have accumulated in the current burst (witnessed by a state whose
burst is starting at cumulative count 2047). -/
theorem counter_cumulative (schedTime : Int → Int) (s : LoopState) (e : EnvStep) :
    (e.idleResult = true →
      (iterStep schedTime s e).1.numShortIntervals = s.numShortIntervals + 1 ∧
      ((iterStep schedTime s e).1.intervalT = OnIdleCpuIntervalT.wide ↔
        (s.numShortIntervals + 1) % 2048 = 0)) ∧
    (e.idleResult = false →
      (iterStep schedTime s e).1.numShortIntervals = s.numShortIntervals) ∧
    (∃ (sEx : LoopState) (eEx : EnvStep),
      eEx.idleResult = true ∧ sEx.intervalT = OnIdleCpuIntervalT.wide ∧
      (iterStep schedTime sEx eEx).1.intervalT = OnIdleCpuIntervalT.wide ∧
      (sEx.numShortIntervals + 1) % 2048 = 0) := by
  refine ⟨fun hres => ?_, iterStep_false_numShort schedTime s e, ?_⟩
  · obtain ⟨-, -, -, hn, hi⟩ := iterStep_true_facts schedTime s e hres
    refine ⟨hn, ?_⟩
    rw [hi]
    by_cases hz : (s.numShortIntervals + 1) % 2048 = 0
    · simp [hz]
    · simp [hz]
  · refine ⟨⟨mkScheduler, OnIdleCpuIntervalT.wide, 2047⟩, ⟨0, true, none, false, 0⟩,
      rfl, rfl, ?_, by norm_num⟩
    have h := (iterStep_true_facts schedTime ⟨mkScheduler, OnIdleCpuIntervalT.wide, 2047⟩
      ⟨0, true, none, false, 0⟩ rfl).2.2.2.2
    rw [h]
    norm_num

/-- An oracle step whose idle slice reports more work and does nothing else. -/
def stepTrue : EnvStep := ⟨0, true, none, false, 0⟩

/-- The interval class received by the k-th call of an unbroken run of
true-returning idle slices that starts at cumulative count `c0` with incoming
class `init`. -/
def trueBurstClass (c0 : Nat) (init : OnIdleCpuIntervalT) (k : Nat) : OnIdleCpuIntervalT :=
  if k = 0 then init
  else if (c0 + k) % 2048 ≠ 0 then OnIdleCpuIntervalT.short else OnIdleCpuIntervalT.wide

theorem trueBurstClass_succ (c : Nat) (init : OnIdleCpuIntervalT) (k : Nat) :
    trueBurstClass (c + 1)
        (if (c + 1) % 2048 ≠ 0 then OnIdleCpuIntervalT.short else OnIdleCpuIntervalT.wide) k
      = trueBurstClass c init (k + 1) := by
  unfold trueBurstClass
  cases k with
  | zero => simp
  | succ n =>
    have harith : c + 1 + (n + 1) = c + (n + 1 + 1) := by omega
    simp only [Nat.succ_ne_zero, if_false, harith]

/-- The loop invariant tying the incoming interval class to the counter: a
Short class is only ever produced together with a counter that is not a
multiple of 2048. -/
def counterInv (s : LoopState) : Prop :=
  s.intervalT = OnIdleCpuIntervalT.short → s.numShortIntervals % 2048 ≠ 0

theorem iterStep_counterInv (schedTime : Int → Int) (s : LoopState) (e : EnvStep)
    (h : counterInv s) : counterInv (iterStep schedTime s e).1 := by
  cases hres : e.idleResult
  case true =>
    obtain ⟨-, -, -, hn, hi⟩ := iterStep_true_facts schedTime s e hres
    intro hshort
    rw [hn]
    rw [hi] at hshort
    by_cases hz : (s.numShortIntervals + 1) % 2048 = 0
    · simp [hz] at hshort
    · exact hz
  case false =>
    obtain ⟨n1, res, off, can, n2⟩ := e
    simp only at hres
    subst hres
    unfold iterStep
    dsimp only
    split
    · split
      · intro hshort
        rw [applyIdleEffects_numShort, dispatchPhase_numShort]
        apply h
        rw [applyIdleEffects_intervalT, dispatchPhase_intervalT] at hshort
        exact hshort
      · intro hshort
        simp at hshort
    · simp_all

theorem runLoop_counterInv (schedTime : Int → Int) (env : List EnvStep) :
    ∀ s : LoopState, counterInv s → counterInv (runLoop schedTime s env).final := by
  induction env with
  | nil =>
    intro s h
    by_cases hd : s.sched.doExit = true
    · rw [runLoop_exit schedTime s [] hd]
      exact h
    · rw [runLoop_nil schedTime s (by simpa using hd)]
      exact h
  | cons e rest ih =>
    intro s h
    by_cases hd : s.sched.doExit = true
    · rw [runLoop_exit schedTime s (e :: rest) hd]
      exact h
    · have hd' : s.sched.doExit = false := by simpa using hd
      by_cases hex : (iterStep schedTime s e).2.exited = true
      · rw [runLoop_consBreak schedTime s e rest hd' hex]
        exact iterStep_counterInv schedTime s e h
      · rw [runLoop_cons schedTime s e rest hd' (by simpa using hex)]
        exact ih (iterStep schedTime s e).1 (iterStep_counterInv schedTime s e h)

theorem runLoop_not_returned (schedTime : Int → Int) (env : List EnvStep) :
    ∀ s : LoopState, (runLoop schedTime s env).returned = false →
      (runLoop schedTime s env).outs.length = env.length ∧
      (runLoop schedTime s env).final.sched.doExit = false := by
  induction env with
  | nil =>
    intro s h
    by_cases hd : s.sched.doExit = true
    · rw [runLoop_exit schedTime s [] hd] at h
      simp at h
    · have hd' : s.sched.doExit = false := by simpa using hd
      rw [runLoop_nil schedTime s hd']
      exact ⟨rfl, hd'⟩
  | cons e rest ih =>
    intro s h
    by_cases hd : s.sched.doExit = true
    · rw [runLoop_exit schedTime s (e :: rest) hd] at h
      simp at h
    · have hd' : s.sched.doExit = false := by simpa using hd
      by_cases hex : (iterStep schedTime s e).2.exited = true
      · rw [runLoop_consBreak schedTime s e rest hd' hex] at h
        simp at h
      · have hex' : (iterStep schedTime s e).2.exited = false := by simpa using hex
        rw [runLoop_cons schedTime s e rest hd' hex'] at h ⊢
        dsimp only at h ⊢
        obtain ⟨h1, h2⟩ := ih (iterStep schedTime s e).1 h
        exact ⟨by simp [h1], h2⟩

theorem runLoop_append (schedTime : Int → Int) (env1 env2 : List EnvStep) :
    ∀ s : LoopState, (runLoop schedTime s env1).returned = false →
      runLoop schedTime s (env1 ++ env2)
        = ⟨(runLoop schedTime (runLoop schedTime s env1).final env2).final,
           (runLoop schedTime s env1).outs
             ++ (runLoop schedTime (runLoop schedTime s env1).final env2).outs,
           (runLoop schedTime (runLoop schedTime s env1).final env2).returned⟩ := by
  induction env1 with
  | nil =>
    intro s h
    by_cases hd : s.sched.doExit = true
    · rw [runLoop_exit schedTime s [] hd] at h
      simp at h
    · have hd' : s.sched.doExit = false := by simpa using hd
      rw [runLoop_nil schedTime s hd']
      simp
  | cons e rest ih =>
    intro s h
    by_cases hd : s.sched.doExit = true
    · rw [runLoop_exit schedTime s (e :: rest) hd] at h
      simp at h
    · have hd' : s.sched.doExit = false := by simpa using hd
      by_cases hex : (iterStep schedTime s e).2.exited = true
      · rw [runLoop_consBreak schedTime s e rest hd' hex] at h
        simp at h
      · have hex' : (iterStep schedTime s e).2.exited = false := by simpa using hex
        rw [runLoop_cons schedTime s e rest hd' hex'] at h
        dsimp only at h
        rw [List.cons_append, runLoop_cons schedTime s e (rest ++ env2) hd' hex',
            ih (iterStep schedTime s e).1 h, runLoop_cons schedTime s e rest hd' hex']
        simp

theorem run_all_true (schedTime : Int → Int) (env : List EnvStep) :
    ∀ s : LoopState,
      (∀ e ∈ env, e.idleResult = true ∧ e.idleCancel = false) →
      s.sched.doExit = false →
      (runLoop schedTime s env).outs.length = env.length ∧
      (runLoop schedTime s env).final.numShortIntervals
        = s.numShortIntervals + env.length ∧
      ∀ (k : Nat) (o : IterOutput), (runLoop schedTime s env).outs.get? k = some o →
        o.idleCall = trueBurstClass s.numShortIntervals s.intervalT k := by
  induction env with
  | nil =>
    intro s henv hexit
    rw [runLoop_nil schedTime s hexit]
    refine ⟨rfl, rfl, fun k o h => ?_⟩
    simp [List.get?] at h
  | cons e rest ih =>
    intro s henv hexit
    have he := henv e (List.mem_cons_self e rest)
    have hrest : ∀ x ∈ rest, x.idleResult = true ∧ x.idleCancel = false :=
      fun x hx => henv x (List.mem_cons_of_mem e hx)
    obtain ⟨hex, -, hsch, hn, hi⟩ := iterStep_true_facts schedTime s e he.1
    have hcall : (iterStep schedTime s e).2.idleCall = s.intervalT :=
      iterStep_idleCall schedTime s e
    have hexit2 : (iterStep schedTime s e).1.sched.doExit = false := by
      rw [hsch, applyIdleEffects_doExit, dispatchPhase_doExit, hexit, he.2]
      rfl
    rw [runLoop_cons schedTime s e rest hexit hex]
    obtain ⟨ihlen, ihc, ihcls⟩ := ih (iterStep schedTime s e).1 hrest hexit2
    dsimp only
    refine ⟨by simp [ihlen], by rw [ihc, hn]; simp; omega, ?_⟩
    intro k o h
    cases k with
    | zero =>
      rw [List.get?_cons_zero] at h
      have ho : o = (iterStep schedTime s e).2 := by
        injection h with h
        exact h.symm
      rw [ho, hcall]
      rfl
    | succ n =>
      rw [List.get?_cons_succ] at h
      have := ihcls n o h
      rw [this, hn, hi]
      exact trueBurstClass_succ s.numShortIntervals s.intervalT n

theorem get?_append_len {α : Type} : ∀ (l lB : List α) (k : Nat),
    (l ++ lB).get? (l.length + k) = lB.get? k
  | [], lB, k => by simp
  | a :: l, lB, k => by
    have harith : (a :: l).length + k = (l.length + k) + 1 := by
      simp [List.length_cons]
      omega
    rw [List.cons_append, harith, List.get?_cons_succ]
    exact get?_append_len l lB k

theorem get?_lt {α : Type} : ∀ (l : List α) (k : Nat), k < l.length →
    ∃ o, l.get? k = some o
  | a :: _, 0, _ => ⟨a, rfl⟩
  | _ :: l, k + 1, h => get?_lt l k (by simpa using h)
  | [], _, h => absurd h (by simp)

/-- Claim C4 (fairness bound): in any execution of `eventLoop`, it never
happens that the idle slice returns true on 2048 consecutive calls with all
2048 of them receiving the Short interval class — among any window of 2048
consecutive true-returning calls at least one receives Wide.  Moreover, while
true results continue, the class passed stays Short except that it is forced
to Wide exactly on the calls where the cumulative short-interval count is a
multiple of 2048, i.e. once per 2048 consecutive true results. -/
theorem fairness_bound (schedTime : Int → Int) (s0 : Scheduler)
    (env1 window : List EnvStep)
    (hrun : (s0.eventLoop schedTime env1).returned = false)
    (hlen : window.length = 2048)
    (hwin : ∀ e ∈ window, e.idleResult = true ∧ e.idleCancel = false) :
    (∃ k, k < 2048 ∧ ∃ o : IterOutput,
      ((s0.eventLoop schedTime (env1 ++ window)).outs).get? (env1.length + k) = some o ∧
      o.idleCall = OnIdleCpuIntervalT.wide) ∧
    (∀ k : Nat, 1 ≤ k → k < 2048 → ∀ o : IterOutput,
      ((s0.eventLoop schedTime (env1 ++ window)).outs).get? (env1.length + k) = some o →
      o.idleCall
        = (if ((s0.eventLoop schedTime env1).final.numShortIntervals + k) % 2048 ≠ 0
           then OnIdleCpuIntervalT.short else OnIdleCpuIntervalT.wide)) := by
  unfold Scheduler.eventLoop at hrun ⊢
  set sInit : LoopState := ⟨s0, OnIdleCpuIntervalT.wide, 0⟩ with hsInit
  obtain ⟨hAlen, hAexit⟩ := runLoop_not_returned schedTime env1 sInit hrun
  have happ := runLoop_append schedTime env1 window sInit hrun
  have hInvA : counterInv (runLoop schedTime sInit env1).final :=
    runLoop_counterInv schedTime env1 sInit (fun h => by simp at h)
  obtain ⟨hBlen, -, hBcls⟩ :=
    run_all_true schedTime window (runLoop schedTime sInit env1).final hwin hAexit
  have hidx : ∀ k : Nat,
      (runLoop schedTime sInit (env1 ++ window)).outs.get? (env1.length + k)
        = (runLoop schedTime (runLoop schedTime sInit env1).final window).outs.get? k := by
    intro k
    rw [happ]
    dsimp only
    rw [← hAlen]
    exact get?_append_len _ _ k
  constructor
  · by_cases hw : (runLoop schedTime sInit env1).final.intervalT = OnIdleCpuIntervalT.short
    · have hc : (runLoop schedTime sInit env1).final.numShortIntervals % 2048 ≠ 0 := hInvA hw
      set c := (runLoop schedTime sInit env1).final.numShortIntervals with hcdef
      refine ⟨2048 - c % 2048, by omega, ?_⟩
      obtain ⟨o, ho⟩ := get?_lt _ (2048 - c % 2048) (by rw [hBlen, hlen]; omega)
      refine ⟨o, by rw [hidx]; exact ho, ?_⟩
      have := hBcls (2048 - c % 2048) o ho
      rw [this]
      unfold trueBurstClass
      rw [if_neg (by omega), if_neg (by omega)]
    · refine ⟨0, by omega, ?_⟩
      obtain ⟨o, ho⟩ := get?_lt _ 0 (by rw [hBlen, hlen]; omega)
      refine ⟨o, by rw [hidx]; simpa using ho, ?_⟩
      have := hBcls 0 o ho
      rw [this]
      unfold trueBurstClass
      rw [if_pos rfl]
      cases hAi : (runLoop schedTime sInit env1).final.intervalT
      · exact absurd hAi hw
      · rfl
  · intro k hk1 hk2 o ho
    rw [hidx] at ho
    have := hBcls k o ho
    rw [this]
    unfold trueBurstClass
    rw [if_neg (by omega)]

/-- Witness for C4: starting a fresh scheduler and feeding 2048 true-returning
idle slices. -/
theorem fairness_bound_w :
    (∃ k, k < 2048 ∧ ∃ o : IterOutput,
      ((mkScheduler.eventLoop schedTimeId
          (([] : List EnvStep) ++ List.replicate 2048 stepTrue)).outs).get?
        (([] : List EnvStep).length + k) = some o ∧
      o.idleCall = OnIdleCpuIntervalT.wide) ∧
    (∀ k : Nat, 1 ≤ k → k < 2048 → ∀ o : IterOutput,
      ((mkScheduler.eventLoop schedTimeId
          (([] : List EnvStep) ++ List.replicate 2048 stepTrue)).outs).get?
        (([] : List EnvStep).length + k) = some o →
      o.idleCall
        = (if ((mkScheduler.eventLoop schedTimeId
                ([] : List EnvStep)).final.numShortIntervals + k) % 2048 ≠ 0
           then OnIdleCpuIntervalT.short else OnIdleCpuIntervalT.wide)) :=
  fairness_bound schedTimeId mkScheduler [] (List.replicate 2048 stepTrue)
    (by decide) (by rw [List.length_replicate])
    (fun e he => by rw [List.eq_of_mem_replicate he]; exact ⟨rfl, rfl⟩)

/-- Witness for C9: both branches exercised at concrete states. -/
theorem counter_cumulative_w :
    (iterStep schedTimeId sampleLoop ⟨0, true, none, false, 0⟩).1.numShortIntervals
      = sampleLoop.numShortIntervals + 1 ∧
    (iterStep schedTimeId sampleLoop stepDispatch).1.numShortIntervals
      = sampleLoop.numShortIntervals :=
  ⟨((counter_cumulative schedTimeId sampleLoop ⟨0, true, none, false, 0⟩).1 (by decide)).1,
   (counter_cumulative schedTimeId sampleLoop stepDispatch).2.1 (by decide)⟩

end Printipi
